import Mathlib

/-!
# opencv-dnn: the decode / suppress / annotate pipeline of `src/main.cxx`

A shallow embedding of `sdk::model_t` (constructor, `detect_image`, `post_process` with its two
lambdas `calc_box` and `draw_box`) and of `main`, followed by the properties of the pipeline.

Conventions of the embedding.

* A finite `float`/`double` value is the rational number it denotes (`ℚ`); comparisons of such
  values are exact in C++ and are the comparisons of `ℚ` here.  NaN and the infinities are not
  represented.  The result of a single-precision multiplication is rounded by `f32`.
* `std::int32_t` values are `Int`s within the 32-bit range.  A float-to-int conversion whose
  value does not fit 32 bits and a signed overflow are undefined in C++: such an execution leaves
  the model.
* A result `none` stands for an execution that leaves the model: undefined behaviour (a
  conversion or a subtraction out of the 32-bit range, an unchecked `std::vector` access out of
  range) or a library assertion that throws.
* Library routines (`cv::imread`, `cv::dnn::blobFromImage`, `Net::forward`, `cv::format`, ...) are
  parameters of the embedding; `cv::minMaxLoc` and `cv::dnn::NMSBoxes` are modelled from the
  specification, as stated at their definitions.
-/

namespace OpencvDnn

/-! ## Numbers -/

/-- Whether an integer is a value of `std::int32_t`. -/
def fits32 (n : Int) : Bool := decide (-2147483648 ≤ n) && decide (n ≤ 2147483647)

/-- The integer obtained from a rational by discarding the fractional part (rounding toward
zero). -/
def truncZ (q : ℚ) : Int := Int.tdiv q.num q.den

/-- Conversion of a floating-point value to `std::int32_t` (`static_cast< std::int32_t >`):
the fractional part is discarded; when the result is not a value of `std::int32_t` the
conversion is undefined (`none`). -/
def trunc (q : ℚ) : Option Int := if fits32 (truncZ q) then some (truncZ q) else none

/-- Subtraction of two `std::int32_t`: undefined (`none`) when the difference overflows. -/
def sub32 (a b : Int) : Option Int := if fits32 (a - b) then some (a - b) else none

/-- Integer nearest to `x`, a tie going to the even neighbour (the IEEE 754 default rounding). -/
def roundHalfEven (x : ℚ) : Int :=
  let f := ⌊x⌋
  let r := x - f
  if r < 1 / 2 then f else if 1 / 2 < r then f + 1 else if f % 2 = 0 then f else f + 1

/-- Binary logarithm of a positive natural number, rounded down, by repeated halving; `fuel`
bounds the number of halvings. -/
def log2Fuel : Nat → Nat → Nat
  | 0, _ => 0
  | fuel + 1, n => if n < 2 then 0 else log2Fuel fuel (n / 2) + 1

/-- Binary logarithm of a positive rational, rounded down: the exponent `e` with
`2^e ≤ x < 2^(e+1)` (`ilog2_spec`).  The difference of the logarithms of numerator and
denominator is this exponent or exceeds it by one. -/
def ilog2 (x : ℚ) : Int :=
  let e : Int := (log2Fuel x.num.natAbs x.num.natAbs : Int) - (log2Fuel x.den x.den : Int)
  if (2 : ℚ) ^ e ≤ x then e else e - 1

/-- Rounding of a real value to the nearest `std::float_t` (binary32: 24 significant bits,
least exponent -126, so that the spacing below `2^-126` is `2^-149`).  Overflow to infinity is
not represented. -/
def f32 (x : ℚ) : ℚ :=
  if x = 0 then 0
  else
    let e := max (ilog2 |x|) (-126)
    let ulp : ℚ := 2 ^ (e - 23)
    roundHalfEven (x / ulp) * ulp

/-- The C++ expression `a * n` for `a : std::float_t` and `n : int`: the integer is converted
to `float` and the product is rounded to `float`. -/
def fmul (a : ℚ) (n : Int) : ℚ := f32 (a * f32 n)

/-! ## Data model -/

/-- The type `cv::Rect`: top-left corner, width and height, all `int`. -/
structure Rect where
  x : Int
  y : Int
  width : Int
  height : Int
deriving DecidableEq, Repr

/-- The type `cv::Point`. -/
structure Point where
  x : Int
  y : Int
deriving DecidableEq, Repr

/-- The struct `sdk::model_conf_t`. -/
structure model_conf_t where
  m_model_path : String
  m_names_path : String
  m_blob_x : Int
  m_blob_y : Int
  m_hit_min : ℚ
  m_iou_max : ℚ
  m_model_conf : String
  m_model_type : String
deriving DecidableEq, Repr

/-- A `cv::Mat` holding an output tensor of the network (`CV_32F`, two-dimensional, continuous):
the header fields `rows` and `cols` and the `data` pointer, `none` for a null pointer and
`some buf` for a pointer to the row-major buffer `buf`, in which row `i` starts at element
`i * cols`. -/
structure Mat where
  rows : Nat
  cols : Nat
  data : Option (List ℚ)
deriving DecidableEq, Repr

/-- The header and the buffer agree: a non-null buffer holds `rows * cols` elements. -/
def Mat.wf (m : Mat) : Prop := ∀ buf, m.data = some buf → buf.length = m.rows * m.cols

/-- Element `(i, j)` of a tensor (zero when there is no such element). -/
def Mat.at (m : Mat) (i j : Nat) : ℚ :=
  match m.data with
  | none => 0
  | some buf => buf.getD (i * m.cols + j) 0

/-- What the drawing primitives do to an image. -/
inductive DrawOp where
  | rectangle (box : Rect)
  | putText (text : String) (org : Point)
deriving DecidableEq, Repr

/-- A `cv::Mat` holding an image: its size, its pixels, and the drawing operations applied to
it so far, the oldest first. -/
structure Image where
  rows : Nat
  cols : Nat
  pixels : List Nat
  drawn : List DrawOp
deriving DecidableEq, Repr

/-- The method `cv::Mat::empty` on an image. -/
def Image.empty (im : Image) : Bool := im.rows == 0 || im.cols == 0

/-- A default-constructed `cv::Mat`. -/
def Image.none : Image := ⟨0, 0, [], []⟩

/-- Apply one drawing primitive to the image. -/
def Image.draw (im : Image) (op : DrawOp) : Image := { im with drawn := im.drawn ++ [op] }

/-- The three vectors `boxes`, `class_ids`, `confidences` local to `post_process`. -/
structure Pool where
  boxes : List Rect
  class_ids : List Int
  confidences : List ℚ
deriving DecidableEq, Repr

/-- The three vectors as `post_process` declares them: empty. -/
def Pool.nil : Pool := ⟨[], [], []⟩

/-! ## The decoder `calc_box` -/

/-- Modelled from the spec: the scan inside `cv::minMaxLoc` (a library routine, not part of the
sources) for the greatest element of a list: `cur` is the greatest so far, `loc` its position,
`k` the position of the head of the remaining list.  A later equal element does not replace
the current one. -/
def maxScan : List ℚ → ℚ → Nat → Nat → ℚ × Nat
  | [], cur, loc, _ => (cur, loc)
  | x :: xs, cur, loc, k => if cur < x then maxScan xs x k (k + 1) else maxScan xs cur loc (k + 1)

/-- Modelled from the spec: `cv::minMaxLoc` is a routine of the OpenCV library and not part of
the sources; the call `cv::minMaxLoc( m, 0, &maxVal, 0, &maxLoc )` is taken to "compute the
maximum value and its index" among the elements of the one-row matrix `m` (spec 4.1), the
index being the first position of the maximum.  Nothing is assumed about an empty matrix:
the result is `none`. -/
def minMaxLoc : List ℚ → Option (ℚ × Int)
  | [] => none
  | x :: xs => some ((maxScan xs x 0 1).1, ((maxScan xs x 0 1).2 : Int))

/-- The expression `cv_mat.row( i ).colRange( 5, cv_mat.cols )`: columns `5 .. cols - 1` of row
`i`.  The library asserts `5 <= cols`; with fewer columns the result is `none`. -/
def rowColRange5 (cv_mat : Mat) (buf : List ℚ) (i : Nat) : Option (List ℚ) :=
  if 5 ≤ cv_mat.cols then
    some ((((buf.drop (i * cv_mat.cols)).take cv_mat.cols).drop 5).take (cv_mat.cols - 5))
  else none

/-- The rectangle built at `main.cxx:120-128` from the row that `data` points at: `size_x` and
`size_y` are the converted products, the corner is the converted centre minus half the size
(integer division, rounding toward zero).  It is `none` when one of the four conversions or one
of the two subtractions is out of the 32-bit range. -/
def make_rect (m_image : Image) (data : List ℚ) : Option Rect := do
  let size_x ← trunc (fmul (data.getD 2 0) m_image.cols)
  let size_y ← trunc (fmul (data.getD 3 0) m_image.rows)
  let x ← (trunc (fmul (data.getD 0 0) m_image.cols)).bind (fun c => sub32 c (Int.tdiv size_x 2))
  let y ← (trunc (fmul (data.getD 1 0) m_image.rows)).bind (fun c => sub32 c (Int.tdiv size_y 2))
  pure { x := x, y := y, width := size_x, height := size_y }

/-- The body of the `for` loop of `calc_box` for row `i`, `data` pointing at the start of the
row: the best class score and its column are computed, and when the score reaches
`m_config.m_hit_min` the rectangle, the class id and the confidence are pushed.  The conversion
of `confidence` back to `float` changes nothing, the value being an element of the tensor. -/
def calc_box_row (m_config : model_conf_t) (m_image : Image) (cv_mat : Mat) (buf : List ℚ)
    (i : Nat) (data : List ℚ) (pool : Pool) : Option Pool :=
  match (rowColRange5 cv_mat buf i).bind minMaxLoc with
  | none => none
  | some (confidence, class_id) =>
    if m_config.m_hit_min ≤ confidence then
      match make_rect m_image data with
      | none => none
      | some box =>
        some
          { boxes := pool.boxes ++ [box]
            class_ids := pool.class_ids ++ [class_id]
            confidences := pool.confidences ++ [confidence] }
    else some pool

/-- The `for` loop of `calc_box`, `for ( i; i < cv_mat.rows; i++, data += cv_mat.cols )`, with
`n` rows left to visit. -/
def calc_box_loop (m_config : model_conf_t) (m_image : Image) (cv_mat : Mat) (buf : List ℚ) :
    Nat → Nat → List ℚ → Pool → Option Pool
  | 0, _, _, pool => some pool
  | n + 1, i, data, pool =>
    match calc_box_row m_config m_image cv_mat buf i data pool with
    | none => none
    | some pool1 => calc_box_loop m_config m_image cv_mat buf n (i + 1) (data.drop cv_mat.cols) pool1

/-- The lambda `calc_box` of `post_process`: the value it returns (0 after "bad material data",
1 otherwise) and the three vectors it has captured by reference.  The parameters `hit_min` and
`iou_max` are not read by the body, which compares with `m_config.m_hit_min`. -/
def calc_box (m_config : model_conf_t) (m_image : Image) (cv_mat : Mat) (_hit_min _iou_max : ℚ)
    (pool : Pool) : Option (Int × Pool) :=
  match cv_mat.data with
  | none => some (0, pool)
  | some buf =>
    (calc_box_loop m_config m_image cv_mat buf cv_mat.rows 0 buf pool).map (fun p => (1, p))

/-! ## The suppressor -/

/-- Modelled from the spec: area of a rectangle, for the intersection-over-union of spec 4.2
(`cv::dnn::NMSBoxes` is a library routine, not part of the sources). -/
def Rect.area (r : Rect) : Int := r.width * r.height

/-- Modelled from the spec: area of the intersection of two rectangles, for the
intersection-over-union of spec 4.2 (part of the model of `cv::dnn::NMSBoxes`). -/
def interArea (a b : Rect) : Int :=
  let w := min (a.x + a.width) (b.x + b.width) - max a.x b.x
  let h := min (a.y + a.height) (b.y + b.height) - max a.y b.y
  if 0 < w ∧ 0 < h then w * h else 0

/-- Modelled from the spec: the "intersection-over-union" of spec 4.2 (part of the model of
`cv::dnn::NMSBoxes`).  For two rectangles of positive width and height this is the usual
quotient; the spec does not say what it is when a width or a height is not positive. -/
def iou (a b : Rect) : ℚ := (interArea a b : ℚ) / ((a.area + b.area - interArea a b : Int) : ℚ)

/-- Modelled from the spec: a candidate inside the suppressor (part of the model of
`cv::dnn::NMSBoxes`): its score, its index in the pool, its rectangle. -/
structure Scored where
  score : ℚ
  idx : Nat
  box : Rect
deriving DecidableEq, Repr

/-- Modelled from the spec: insertion into a list sorted by descending score, before the first
element whose score is not greater (part of the model of `cv::dnn::NMSBoxes`). -/
def insertDesc (c : Scored) : List Scored → List Scored
  | [] => [c]
  | d :: ds => if c.score < d.score then d :: insertDesc c ds else c :: d :: ds

/-- Modelled from the spec: "sort candidates by descending confidence (ties broken by original
order)" (spec 4.2, part of the model of `cv::dnn::NMSBoxes`). -/
def sortDesc : List Scored → List Scored
  | [] => []
  | c :: cs => insertDesc c (sortDesc cs)

/-- Modelled from the spec: the candidates of the two vectors handed to `cv::dnn::NMSBoxes`,
numbered from `k` on. -/
def scoredFrom : Nat → List Rect → List ℚ → List Scored
  | k, b :: bs, s :: ss => ⟨s, k, b⟩ :: scoredFrom (k + 1) bs ss
  | _, _, _ => []

/-- Modelled from the spec: the greedy selection of spec 4.2 (part of the model of
`cv::dnn::NMSBoxes`): the first (highest remaining) candidate is kept and every remaining one
whose intersection-over-union with it exceeds the threshold is discarded; `fuel` bounds the
number of rounds, and as many rounds as there are candidates are enough (`greedy_fuel`). -/
def greedy (nms_threshold : ℚ) : Nat → List Scored → List Scored
  | 0, _ => []
  | _ + 1, [] => []
  | fuel + 1, c :: rest =>
    c :: greedy nms_threshold fuel
      (rest.filter (fun d => !decide (nms_threshold < iou d.box c.box)))

/-- Modelled from the spec: `cv::dnn::NMSBoxes` is a routine of the OpenCV library and not part
of the sources.  Spec 4.2: "sort candidates by descending confidence (ties broken by original
order), repeatedly select the highest-remaining-confidence box, keep it, and discard every
remaining box whose intersection-over-union with the kept box exceeds the overlap threshold";
the result is the list of the indices kept, in that order.  The confidence threshold is the
third argument of the routine: only candidates whose score exceeds it take part. -/
def NMSBoxes (boxes : List Rect) (scores : List ℚ) (score_threshold nms_threshold : ℚ) :
    List Int :=
  let cands := (scoredFrom 0 boxes scores).filter (fun c => decide (score_threshold < c.score))
  let order := sortDesc cands
  (greedy nms_threshold order.length order).map (fun c => (c.idx : Int))

/-- The suppression step of `post_process`: `indices` after the call
`cv::dnn::NMSBoxes( boxes, confidences, m_config.m_hit_min, m_config.m_iou_max, indices )`. -/
def suppress (m_config : model_conf_t) (pool : Pool) : List Int :=
  NMSBoxes pool.boxes pool.confidences m_config.m_hit_min m_config.m_iou_max

/-! ## The annotator `draw_box` -/

/-- Unchecked `operator[]` of a `std::vector` with an `int` index: `none` when the index,
converted to `std::size_t`, is not below the size. -/
def vecAt {α : Type} (v : List α) (i : Int) : Option α :=
  if 0 ≤ i then v.get? i.toNat else none

/-- The lambda `draw_box` of `post_process`: the value it returns and the image.  The routine
`cv::format( "%s, %.2f", name, confidence )` is the parameter `format`. -/
def draw_box (m_names : List String) (format : String → ℚ → String) (m_image : Image)
    (class_id : Int) (confidence : ℚ) (box : Rect) : Option (Int × Image) :=
  let image1 := m_image.draw (DrawOp.rectangle box)
  if m_names.isEmpty then some (1, image1)
  else
    match vecAt m_names class_id with
    | none => none
    | some name =>
      let conf_label := format name confidence
      if conf_label.isEmpty then some (0, image1)
      else some (1, image1.draw (DrawOp.putText conf_label ⟨box.x, box.y⟩))

/-! ## The model object -/

/-- A `cv::dnn::Net`: `none` is the empty net, `some f` a loaded network that maps an input blob
to the tensors of its output layers. -/
abbrev Net := Option (List ℚ → List Mat)

/-- The struct `sdk::model_t`.  The blob `m_blob` is the list of its elements. -/
structure model_t where
  m_names : List String
  m_output : List Mat
  m_image : Image
  m_blob : List ℚ
  m_net : Net
  m_config : model_conf_t

/-- The library and the file system as the program sees them. -/
structure World where
  readNet : String → String → String → Net
  openNames : String → Option (List String)
  imread : String → Image
  blobFromImage : Image → Int → Int → List ℚ
  format : String → ℚ → String

/-- The constructor `model_t::model_t( conf )`.  The members start default-initialised, which
leaves the numbers of `m_config` indeterminate: `indeterminate` is what they happen to hold. -/
def model_t.ctor (w : World) (indeterminate : model_conf_t) (conf : model_conf_t) : model_t :=
  let m_net := w.readNet conf.m_model_path conf.m_model_conf conf.m_model_type
  let this : model_t := ⟨[], [], Image.none, [], m_net, indeterminate⟩
  if m_net.isNone then this
  else
    match w.openNames conf.m_names_path with
    | none => this
    | some names => { this with m_names := names, m_config := conf }

/-- The method `model_t::detect_image`: the value it returns and the object afterwards.  The
names of the output layers, which the source computes once and caches, are part of the loaded
network; a forward pass through an empty net is left to the library (`none`). -/
def detect_image (w : World) (this : model_t) (image_path : String) : Option (Int × model_t) :=
  let this1 := { this with m_image := w.imread image_path }
  if this1.m_image.empty then some (0, this1)
  else
    let this2 :=
      { this1 with m_blob := w.blobFromImage this1.m_image this1.m_config.m_blob_x
                               this1.m_config.m_blob_y }
    if this2.m_blob.isEmpty then some (0, this2)
    else
      match this2.m_net with
      | none => none
      | some forward =>
        let this3 := { this2 with m_output := forward this2.m_blob }
        some (if 1 < this3.m_output.length then 1 else 0, this3)

/-- The loop `for ( auto& it : m_output ) calc_box( it, ... )` of `post_process`; the value
returned by `calc_box` is not looked at. -/
def decode (m_config : model_conf_t) (m_image : Image) : List Mat → Pool → Option Pool
  | [], pool => some pool
  | it :: rest, pool =>
    match calc_box m_config m_image it m_config.m_hit_min m_config.m_iou_max pool with
    | none => none
    | some (_, pool1) => decode m_config m_image rest pool1

/-- The loop `for ( auto& it : indices ) draw_box( class_ids[ it ], confidences[ it ],
boxes[ it ] )` of `post_process`. -/
def annotate (m_names : List String) (format : String → ℚ → String) (pool : Pool) :
    List Int → Image → Option Image
  | [], image => some image
  | it :: rest, image =>
    match vecAt pool.class_ids it, vecAt pool.confidences it, vecAt pool.boxes it with
    | some class_id, some confidence, some box =>
      match draw_box m_names format image class_id confidence box with
      | none => none
      | some (_, image1) => annotate m_names format pool rest image1
    | _, _, _ => none

/-- The method `model_t::post_process`: the value it returns and the object afterwards. -/
def post_process (w : World) (this : model_t) : Option (Int × model_t) :=
  if this.m_output.length ≤ 1 then some (0, this)
  else
    match decode this.m_config this.m_image this.m_output Pool.nil with
    | none => none
    | some pool =>
      match annotate this.m_names w.format pool (suppress this.m_config pool) this.m_image with
      | none => none
      | some image => some (1, { this with m_image := image })

/-! ## The program `main` -/

/-- The configuration written in `main`.  The two thresholds are the `float` literals `0.3f` and
`0.4f`, written out as the fractions they denote (`config_thresholds`). -/
def config : model_conf_t :=
  { m_model_path := "net/models/yolov3.weights"
    m_names_path := "net/names/coco.names"
    m_blob_x := 416
    m_blob_y := 416
    m_hit_min := 5033165 / 16777216
    m_iou_max := 13421773 / 33554432
    m_model_conf := "net/config/yolov3.cfg"
    m_model_type := "Darknet" }

/-- The array `files` of `main`. -/
def files : List String :=
  ["shibuya_crossing.jpg", "people_walking.jpg", "giraffe.jpg", "horses.jpg", "scream.jpg",
   "person.jpg", "eagle.jpg", "kite.jpg", "dog.jpg"]

/-- What `main` does per image, as seen from outside. -/
inductive Event where
  | detect_image (image_path : String) (ret : Int)
  | post_process (ret : Int)
  | imshow (winname : String) (image : Image)
deriving DecidableEq, Repr

/-- The loop `for ( auto& it : files )` of `main`; the values returned by `detect_image` and
`post_process` are not looked at. -/
def main_loop (w : World) : List String → model_t → Option (List Event)
  | [], _ => some []
  | it :: rest, model =>
    match detect_image w model ("net/" ++ it) with
    | none => none
    | some (ret1, model1) =>
      match post_process w model1 with
      | none => none
      | some (ret2, model2) =>
        (main_loop w rest model2).map (fun evs =>
          [Event.detect_image ("net/" ++ it) ret1, Event.post_process ret2,
           Event.imshow it model2.m_image] ++ evs)

/-- The function `main`: the events of the run, none at all when it returns before the loop. -/
def main (w : World) (indeterminate : model_conf_t) : Option (List Event) :=
  let model := model_t.ctor w indeterminate config
  if model.m_net.isNone then some [] else main_loop w files model

/-! ## Auxiliary definitions for the statements -/

/-- Result of the scan of row `i` (zero where the scan has none): used to state the loop. -/
def rowBest (cv_mat : Mat) (buf : List ℚ) (i : Nat) : ℚ × Int :=
  ((rowColRange5 cv_mat buf i).bind minMaxLoc).getD (0, 0)

/-- The value `trunc(frac * extent)`: the `float` product of a normalized field and an extent
of the image, with the fractional part discarded. -/
def denorm (frac : ℚ) (extent : Nat) : Int := truncZ (fmul frac extent)

/-- Rectangle that row `i` of a tensor decodes to, in terms of the elements of the tensor. -/
def rowRect (m_image : Image) (cv_mat : Mat) (i : Nat) : Rect :=
  { x := denorm (cv_mat.at i 0) m_image.cols - Int.tdiv (denorm (cv_mat.at i 2) m_image.cols) 2
    y := denorm (cv_mat.at i 1) m_image.rows - Int.tdiv (denorm (cv_mat.at i 3) m_image.rows) 2
    width := denorm (cv_mat.at i 2) m_image.cols
    height := denorm (cv_mat.at i 3) m_image.rows }

/-- Whether the arithmetic for row `i` stays within `std::int32_t`: the four converted products
and the two corner coordinates. -/
def rowFits (m_image : Image) (cv_mat : Mat) (i : Nat) : Bool :=
  fits32 (denorm (cv_mat.at i 2) m_image.cols) && fits32 (denorm (cv_mat.at i 3) m_image.rows) &&
    fits32 (denorm (cv_mat.at i 0) m_image.cols) && fits32 (denorm (cv_mat.at i 1) m_image.rows) &&
    fits32 (rowRect m_image cv_mat i).x && fits32 (rowRect m_image cv_mat i).y

/-- Rows `i .. i + n - 1` whose best class score reaches the threshold, in order. -/
def rowsKept (m_config : model_conf_t) (cv_mat : Mat) (buf : List ℚ) (i n : Nat) : List Nat :=
  (List.range' i n).filter (fun r => decide (m_config.m_hit_min ≤ (rowBest cv_mat buf r).1))

/-! ## Sample data -/

/-- An image of 416 x 416 pixels on which nothing has been drawn. -/
def sampleImage : Image := ⟨416, 416, [], []⟩

/-- Buffer of a tensor of three rows and seven columns (two classes).  Row 0 has best score
`0.3f`, exactly the threshold of `config`, row 1 stays below it, row 2 is above it with
class 1 (`0.9f`). -/
def sampleBuf : List ℚ :=
  [1 / 2, 1 / 2, 13421773 / 67108864, 13421773 / 134217728, 1, 5033165 / 16777216, 0,
   1 / 4, 1 / 4, 1 / 8, 1 / 8, 1, 1 / 4, 1 / 8,
   3 / 4, 1 / 4, 1 / 2, 1 / 2, 1, 1 / 2, 7549747 / 8388608]

/-- The tensor over `sampleBuf`. -/
def sampleTensor : Mat := ⟨3, 7, some sampleBuf⟩

/-- Tensor of one row holding the box (0.5, 0.5, 0.2, 0.1) as decimal fractions, with
objectness 1 and one class of score 0.9. -/
def boxTensor : Mat := ⟨1, 6, some [1 / 2, 1 / 2, 1 / 5, 1 / 10, 1, 9 / 10]⟩

/-- The same row with every entry the `float` nearest to the decimal fraction, written out as
the fraction it denotes (`boxTensorF32_eq`). -/
def boxTensorF32 : Mat :=
  ⟨1, 6, some [1 / 2, 1 / 2, 13421773 / 67108864, 13421773 / 134217728, 1, 7549747 / 8388608]⟩

/-- Tensor of one row whose width field is the `float` 1e7: on an image 416 pixels wide the
product 4.16e9 is beyond `std::int32_t`. -/
def wideTensor : Mat := ⟨1, 6, some [1 / 2, 1 / 2, 10000000, 1 / 10, 1, 7549747 / 8388608]⟩

/-- A readable photograph of 416 x 416 pixels. -/
def photo : Image := ⟨416, 416, [0], []⟩

/-- A loaded network with two output layers: the first yields the one row of `boxTensorF32`,
the second an empty tensor. -/
def sampleNet : Net := some (fun _ => [boxTensorF32, ⟨0, 6, none⟩])

/-- A world in which the network loads and every image is readable, but the file of class
names cannot be opened. -/
def worldNoNames : World :=
  { readNet := fun _ _ _ => sampleNet
    openNames := fun _ => none
    imread := fun _ => photo
    blobFromImage := fun _ _ _ => [0]
    format := fun name _ => name }

/-- A world in which the network and the names load, the first image of `files` is readable
and no other image is. -/
def worldOneImage : World :=
  { readNet := fun _ _ _ => sampleNet
    openNames := fun _ => some ["person"]
    imread := fun image_path =>
      if image_path = "net/shibuya_crossing.jpg" then photo else Image.none
    blobFromImage := fun _ _ _ => [0]
    format := fun name _ => name }

/-- A configuration that was never assigned: the strings are empty, and the numbers, which are
indeterminate, happen to be zero. -/
def unassigned : model_conf_t := ⟨"", "", 0, 0, 0, 0, "", ""⟩

/-- The object after `main` has run `detect_image` and `post_process` on the first image in
`worldOneImage`. -/
def afterFirstImage : Option model_t :=
  ((detect_image worldOneImage (model_t.ctor worldOneImage unassigned config)
      "net/shibuya_crossing.jpg").bind (fun r => post_process worldOneImage r.2)).map Prod.snd

/-- The object after `main` has then run `detect_image` on the second image, which cannot be
read in `worldOneImage`, together with the value that call returns. -/
def afterSecondDetect : Option (Int × model_t) :=
  afterFirstImage.bind (fun m => detect_image worldOneImage m "net/people_walking.jpg")

/-- The three vectors have one length and every class id is below the number `n` of classes. -/
def Pool.ok (n : Int) (pool : Pool) : Prop :=
  pool.boxes.length = pool.class_ids.length ∧ pool.class_ids.length = pool.confidences.length ∧
    ∀ id ∈ pool.class_ids, 0 ≤ id ∧ id < n


/-! ## Properties -/

theorem log2Fuel_spec : ∀ (fuel n : Nat), 0 < n → n < 2 ^ fuel →
    2 ^ log2Fuel fuel n ≤ n ∧ n < 2 ^ (log2Fuel fuel n + 1) := by
  intro fuel
  induction fuel with
  | zero =>
    intro n h0 h1
    simp at h1
    omega
  | succ fuel ih =>
    intro n h0 h1
    unfold log2Fuel
    split
    · simp
      omega
    · rename_i h2
      have hlt : n / 2 < 2 ^ fuel := by
        rw [Nat.pow_succ] at h1
        omega
      obtain ⟨ha, hb⟩ := ih (n / 2) (by omega) hlt
      constructor
      · rw [Nat.pow_succ]
        omega
      · rw [Nat.pow_succ]
        omega

theorem log2Fuel_self (n : Nat) (h0 : 0 < n) :
    2 ^ log2Fuel n n ≤ n ∧ n < 2 ^ (log2Fuel n n + 1) :=
  log2Fuel_spec n n h0 (Nat.lt_two_pow n)

theorem ilog2_spec (x : ℚ) (hx : 0 < x) :
    (2 : ℚ) ^ ilog2 x ≤ x ∧ x < (2 : ℚ) ^ (ilog2 x + 1) := by
  have hnum : 0 < x.num := Rat.num_pos.2 hx
  have hnat : 0 < x.num.natAbs := Int.natAbs_pos.2 (ne_of_gt hnum)
  obtain ⟨ha1, ha2⟩ := log2Fuel_self x.num.natAbs hnat
  obtain ⟨hb1, hb2⟩ := log2Fuel_self x.den x.den_pos
  have hxeq : x = (x.num.natAbs : ℚ) / (x.den : ℚ) := by
    have h1 : ((x.num.natAbs : Int) : ℚ) = (x.num : ℚ) := by
      rw [Int.natAbs_of_nonneg (le_of_lt hnum)]
    have h2 : ((x.num.natAbs : ℕ) : ℚ) = ((x.num.natAbs : Int) : ℚ) := (Int.cast_natCast _).symm
    rw [h2, h1, Rat.num_div_den]
  have hden : (0 : ℚ) < (x.den : ℚ) := by exact_mod_cast x.den_pos
  set a := log2Fuel x.num.natAbs x.num.natAbs with ha
  set b := log2Fuel x.den x.den with hb
  have ha1q : (2 : ℚ) ^ a ≤ (x.num.natAbs : ℚ) := by exact_mod_cast ha1
  have ha2q : (x.num.natAbs : ℚ) < (2 : ℚ) ^ (a + 1) := by exact_mod_cast ha2
  have hb1q : (2 : ℚ) ^ b ≤ (x.den : ℚ) := by exact_mod_cast hb1
  have hb2q : (x.den : ℚ) < (2 : ℚ) ^ (b + 1) := by exact_mod_cast hb2
  have h2a : (0 : ℚ) < (2 : ℚ) ^ a := by positivity
  have h2b : (0 : ℚ) < (2 : ℚ) ^ b := by positivity
  have hup : x < (2 : ℚ) ^ (((a : Int) - (b : Int)) + 1) := by
    have : (2 : ℚ) ^ (((a : Int) - (b : Int)) + 1) = (2 : ℚ) ^ (a + 1) / (2 : ℚ) ^ b := by
      rw [show ((a : Int) - (b : Int)) + 1 = ((a + 1 : ℕ) : Int) - ((b : ℕ) : Int) by push_cast; ring,
        zpow_sub₀ (by norm_num : (2 : ℚ) ≠ 0), zpow_natCast, zpow_natCast]
    rw [this, hxeq, div_lt_div_iff₀ hden h2b]
    calc (x.num.natAbs : ℚ) * (2 : ℚ) ^ b < (2 : ℚ) ^ (a + 1) * (2 : ℚ) ^ b :=
          mul_lt_mul_of_pos_right ha2q h2b
      _ ≤ (2 : ℚ) ^ (a + 1) * (x.den : ℚ) := mul_le_mul_of_nonneg_left hb1q (by positivity)
  have hlow : (2 : ℚ) ^ (((a : Int) - (b : Int)) - 1) ≤ x := by
    have : (2 : ℚ) ^ (((a : Int) - (b : Int)) - 1) = (2 : ℚ) ^ a / (2 : ℚ) ^ (b + 1) := by
      rw [show ((a : Int) - (b : Int)) - 1 = ((a : ℕ) : Int) - ((b + 1 : ℕ) : Int) by push_cast; ring,
        zpow_sub₀ (by norm_num : (2 : ℚ) ≠ 0), zpow_natCast, zpow_natCast]
    rw [this, hxeq, div_le_div_iff₀ (by positivity) hden]
    calc (2 : ℚ) ^ a * (x.den : ℚ) ≤ (2 : ℚ) ^ a * (2 : ℚ) ^ (b + 1) :=
          mul_le_mul_of_nonneg_left (le_of_lt hb2q) (le_of_lt h2a)
      _ ≤ (x.num.natAbs : ℚ) * (2 : ℚ) ^ (b + 1) :=
          mul_le_mul_of_nonneg_right ha1q (by positivity)
  unfold ilog2
  simp only [← ha, ← hb]
  split
  · rename_i h
    exact ⟨h, hup⟩
  · rename_i h
    refine ⟨hlow, ?_⟩
    rw [sub_add_cancel]
    exact lt_of_not_le h

theorem ilog2_eq_log (x : ℚ) (hx : 0 < x) : ilog2 x = Int.log 2 x := by
  obtain ⟨h1, h2⟩ := ilog2_spec x hx
  have hle : ilog2 x ≤ Int.log 2 x :=
    (Int.zpow_le_iff_le_log (by norm_num : 1 < 2) hx).1 (by exact_mod_cast h1)
  have hlt : Int.log 2 x < ilog2 x + 1 :=
    (Int.lt_zpow_iff_log_lt (by norm_num : 1 < 2) hx).1 (by exact_mod_cast h2)
  omega

theorem f32_eq_log (x : ℚ) :
    f32 x =
      if x = 0 then 0
      else
        (roundHalfEven (x / (2 : ℚ) ^ (max (Int.log 2 |x|) (-126) - 23)) : ℚ) *
          (2 : ℚ) ^ (max (Int.log 2 |x|) (-126) - 23) := by
  unfold f32
  split
  · rfl
  · rename_i h
    rw [ilog2_eq_log |x| (abs_pos.2 h)]

theorem boxTensorF32_eq :
    boxTensorF32 =
      ⟨1, 6, some [f32 (1 / 2), f32 (1 / 2), f32 (1 / 5), f32 (1 / 10), f32 1, f32 (9 / 10)]⟩ := by
  decide!

theorem maxScan_spec (all : List ℚ) :
    ∀ (xs : List ℚ) (cur : ℚ) (loc k : Nat), all.drop k = xs → loc < k → all.getD loc 0 = cur →
      (maxScan xs cur loc k).2 < k + xs.length ∧
      all.getD (maxScan xs cur loc k).2 0 = (maxScan xs cur loc k).1 ∧
      cur ≤ (maxScan xs cur loc k).1 ∧ ∀ x ∈ xs, x ≤ (maxScan xs cur loc k).1 := by
  intro xs
  induction xs with
  | nil =>
    intro cur loc k _ hloc hcur
    exact ⟨by simpa [maxScan] using hloc, by simpa [maxScan] using hcur, by simp [maxScan],
      by simp⟩
  | cons x xs ih =>
    intro cur loc k hdrop hloc hcur
    have hk : k < all.length := by
      by_contra h
      have : all.drop k = [] := List.drop_of_length_le (by omega)
      simp [this] at hdrop
    have hx : all.getD k 0 = x := by
      have := congrArg (fun l => l.getD 0 0) hdrop
      simpa using this
    have hdrop1 : all.drop (k + 1) = xs := by
      have := congrArg List.tail hdrop
      simpa using this
    unfold maxScan
    split
    · rename_i hlt
      obtain ⟨h1, h2, h3, h4⟩ := ih x k (k + 1) hdrop1 (by omega) hx
      refine ⟨by simp; omega, h2, le_trans (le_of_lt hlt) h3, ?_⟩
      intro y hy
      rcases List.mem_cons.1 hy with rfl | hy
      · exact h3
      · exact h4 y hy
    · rename_i hlt
      obtain ⟨h1, h2, h3, h4⟩ := ih cur loc (k + 1) hdrop1 (by omega) hcur
      refine ⟨by simp; omega, h2, h3, ?_⟩
      intro y hy
      rcases List.mem_cons.1 hy with rfl | hy
      · exact le_trans (not_lt.1 hlt) h3
      · exact h4 y hy

theorem minMaxLoc_spec (xs : List ℚ) (hne : xs ≠ []) :
    ∃ (v : ℚ) (k : Nat), minMaxLoc xs = some (v, (k : Int)) ∧ k < xs.length ∧
      xs.getD k 0 = v ∧ ∀ y ∈ xs, y ≤ v := by
  cases xs with
  | nil => exact absurd rfl hne
  | cons x xs =>
    obtain ⟨h1, h2, h3, h4⟩ := maxScan_spec (x :: xs) xs x 0 1 rfl (by omega) rfl
    refine ⟨(maxScan xs x 0 1).1, (maxScan xs x 0 1).2, rfl, ?_, h2, ?_⟩
    · simp; omega
    · intro y hy
      rcases List.mem_cons.1 hy with rfl | hy
      · exact h3
      · exact h4 y hy

theorem rowColRange5_spec (cv_mat : Mat) (buf : List ℚ) (i : Nat)
    (hlen : buf.length = cv_mat.rows * cv_mat.cols) (hi : i < cv_mat.rows)
    (hc : 5 < cv_mat.cols) :
    ∃ s, rowColRange5 cv_mat buf i = some s ∧ s ≠ [] ∧ s.length = cv_mat.cols - 5 ∧
      ∀ j, j < cv_mat.cols - 5 → s.getD j 0 = buf.getD (i * cv_mat.cols + (5 + j)) 0 := by
  have hrow : i * cv_mat.cols + cv_mat.cols ≤ buf.length := by
    rw [hlen]
    calc i * cv_mat.cols + cv_mat.cols = (i + 1) * cv_mat.cols := by ring
      _ ≤ cv_mat.rows * cv_mat.cols := Nat.mul_le_mul_right _ hi
  refine ⟨(((buf.drop (i * cv_mat.cols)).take cv_mat.cols).drop 5).take (cv_mat.cols - 5),
    by simp [rowColRange5, le_of_lt hc], ?_, ?_, ?_⟩
  · intro h
    have := congrArg List.length h
    simp at this
    omega
  · simp
    omega
  · intro j hj
    simp only [List.getD_eq_getElem?_getD, List.getElem?_take, List.getElem?_drop]
    have h1 : j < cv_mat.cols - 5 := hj
    have h2 : 5 + j < cv_mat.cols := by omega
    simp [h1, h2]

theorem rowBest_spec (cv_mat : Mat) (buf : List ℚ) (i : Nat) (hdata : cv_mat.data = some buf)
    (hlen : buf.length = cv_mat.rows * cv_mat.cols) (hi : i < cv_mat.rows)
    (hc : 5 < cv_mat.cols) :
    ∃ k : Nat, (rowColRange5 cv_mat buf i).bind minMaxLoc = some ((rowBest cv_mat buf i).1, (k : Int)) ∧
      (rowBest cv_mat buf i).2 = (k : Int) ∧ k < cv_mat.cols - 5 ∧
      cv_mat.at i (5 + k) = (rowBest cv_mat buf i).1 ∧
      ∀ j, 5 ≤ j → j < cv_mat.cols → cv_mat.at i j ≤ (rowBest cv_mat buf i).1 := by
  obtain ⟨s, hs, hne, hslen, hget⟩ := rowColRange5_spec cv_mat buf i hlen hi hc
  obtain ⟨v, k, hmm, hk, hv, hmax⟩ := minMaxLoc_spec s hne
  have hbest : rowBest cv_mat buf i = (v, (k : Int)) := by
    simp [rowBest, hs, hmm]
  have hk5 : k < cv_mat.cols - 5 := by omega
  refine ⟨k, by simp [hbest, hs, hmm], by simp [hbest], hk5, ?_, ?_⟩
  · simp only [Mat.at, hdata, hbest]
    rw [← hget k hk5]
    exact hv
  · intro j hj5 hjc
    simp only [Mat.at, hdata, hbest]
    have hj : j - 5 < cv_mat.cols - 5 := by omega
    have := hget (j - 5) hj
    rw [show 5 + (j - 5) = j by omega] at this
    rw [← this]
    apply hmax
    rw [List.getD_eq_getElem?_getD, List.getElem?_eq_getElem (by omega)]
    simp

theorem trunc_fmul (frac : ℚ) (extent : Nat) :
    trunc (fmul frac extent) =
      if fits32 (denorm frac extent) then some (denorm frac extent) else none := rfl

theorem make_rect_spec (m_image : Image) (cv_mat : Mat) (buf : List ℚ) (i : Nat)
    (hdata : cv_mat.data = some buf) :
    make_rect m_image (buf.drop (i * cv_mat.cols)) =
      if rowFits m_image cv_mat i then some (rowRect m_image cv_mat i) else none := by
  have hd : ∀ j, (buf.drop (i * cv_mat.cols)).getD j 0 = cv_mat.at i j := by
    intro j
    simp [Mat.at, hdata, List.getD_eq_getElem?_getD, List.getElem?_drop]
  unfold make_rect
  simp only [hd, trunc_fmul]
  cases h2 : fits32 (denorm (cv_mat.at i 2) m_image.cols) <;>
  cases h3 : fits32 (denorm (cv_mat.at i 3) m_image.rows) <;>
  cases h0 : fits32 (denorm (cv_mat.at i 0) m_image.cols) <;>
  cases h1 : fits32 (denorm (cv_mat.at i 1) m_image.rows) <;>
  cases hx : fits32 (rowRect m_image cv_mat i).x <;>
  cases hy : fits32 (rowRect m_image cv_mat i).y <;>
  simp [rowFits, h2, h3, h0, h1, hx, hy, sub32] <;>
  simp_all [rowRect]

theorem calc_box_row_spec (m_config : model_conf_t) (m_image : Image) (cv_mat : Mat)
    (buf : List ℚ) (i : Nat) (pool : Pool) (hdata : cv_mat.data = some buf)
    (hlen : buf.length = cv_mat.rows * cv_mat.cols) (hi : i < cv_mat.rows)
    (hc : 5 < cv_mat.cols) :
    calc_box_row m_config m_image cv_mat buf i (buf.drop (i * cv_mat.cols)) pool =
      if m_config.m_hit_min ≤ (rowBest cv_mat buf i).1 then
        if rowFits m_image cv_mat i then
          some
            { boxes := pool.boxes ++ [rowRect m_image cv_mat i]
              class_ids := pool.class_ids ++ [(rowBest cv_mat buf i).2]
              confidences := pool.confidences ++ [(rowBest cv_mat buf i).1] }
        else none
      else some pool := by
  obtain ⟨k, hk, hk2, -, -, -⟩ := rowBest_spec cv_mat buf i hdata hlen hi hc
  unfold calc_box_row
  rw [hk, make_rect_spec m_image cv_mat buf i hdata]
  simp only [hk2]
  by_cases hpass : m_config.m_hit_min ≤ (rowBest cv_mat buf i).1
  · cases hfit : rowFits m_image cv_mat i <;> simp [hpass]
  · simp [hpass]

theorem rowsKept_succ (m_config : model_conf_t) (cv_mat : Mat) (buf : List ℚ) (i n : Nat) :
    rowsKept m_config cv_mat buf i (n + 1) =
      if m_config.m_hit_min ≤ (rowBest cv_mat buf i).1 then
        i :: rowsKept m_config cv_mat buf (i + 1) n
      else rowsKept m_config cv_mat buf (i + 1) n := by
  by_cases hpass : m_config.m_hit_min ≤ (rowBest cv_mat buf i).1
  · simp [rowsKept, List.range'_succ, List.filter_cons, hpass]
  · simp [rowsKept, List.range'_succ, List.filter_cons, hpass]

theorem calc_box_loop_spec (m_config : model_conf_t) (m_image : Image) (cv_mat : Mat)
    (buf : List ℚ) (hdata : cv_mat.data = some buf)
    (hlen : buf.length = cv_mat.rows * cv_mat.cols) (hc : 5 < cv_mat.cols) :
    ∀ (n i : Nat) (pool : Pool), i + n = cv_mat.rows →
      calc_box_loop m_config m_image cv_mat buf n i (buf.drop (i * cv_mat.cols)) pool =
        if (rowsKept m_config cv_mat buf i n).all (rowFits m_image cv_mat) then
          some
            { boxes := pool.boxes ++ (rowsKept m_config cv_mat buf i n).map (rowRect m_image cv_mat)
              class_ids := pool.class_ids ++
                (rowsKept m_config cv_mat buf i n).map (fun r => (rowBest cv_mat buf r).2)
              confidences := pool.confidences ++
                (rowsKept m_config cv_mat buf i n).map (fun r => (rowBest cv_mat buf r).1) }
        else none := by
  intro n
  induction n with
  | zero =>
    intro i pool _
    simp [calc_box_loop, rowsKept]
  | succ n ih =>
    intro i pool hin
    have hi : i < cv_mat.rows := by omega
    have hdrop : List.drop cv_mat.cols (List.drop (i * cv_mat.cols) buf) =
        List.drop ((i + 1) * cv_mat.cols) buf := by
      rw [List.drop_drop]
      congr 1
      ring
    unfold calc_box_loop
    rw [calc_box_row_spec m_config m_image cv_mat buf i pool hdata hlen hi hc, rowsKept_succ]
    by_cases hpass : m_config.m_hit_min ≤ (rowBest cv_mat buf i).1
    · cases hfit : rowFits m_image cv_mat i
      · simp [hpass, hfit]
      · simp only [hpass, hfit, if_true, hdrop]
        rw [ih (i + 1) _ (by omega)]
        simp [hfit]
    · simp only [hpass, if_false, hdrop]
      rw [ih (i + 1) _ (by omega)]

theorem rowsKept_pairwise (m_config : model_conf_t) (cv_mat : Mat) (buf : List ℚ) (i n : Nat) :
    (rowsKept m_config cv_mat buf i n).Pairwise (fun a b => a < b) := by
  unfold rowsKept
  exact List.Pairwise.filter _ (List.pairwise_lt_range' i n)

theorem mem_rowsKept (m_config : model_conf_t) (cv_mat : Mat) (buf : List ℚ) (i : Nat) :
    i ∈ rowsKept m_config cv_mat buf 0 cv_mat.rows ↔
      i < cv_mat.rows ∧ m_config.m_hit_min ≤ (rowBest cv_mat buf i).1 := by
  simp [rowsKept, List.mem_filter, List.mem_range']

theorem calc_box_spec (m_config : model_conf_t) (m_image : Image) (cv_mat : Mat) (buf : List ℚ)
    (hit_min iou_max : ℚ) (pool : Pool) (hdata : cv_mat.data = some buf)
    (hlen : buf.length = cv_mat.rows * cv_mat.cols) (hc : 5 < cv_mat.cols) :
    calc_box m_config m_image cv_mat hit_min iou_max pool =
      if (rowsKept m_config cv_mat buf 0 cv_mat.rows).all (rowFits m_image cv_mat) then
        some (1,
          { boxes := pool.boxes ++
              (rowsKept m_config cv_mat buf 0 cv_mat.rows).map (rowRect m_image cv_mat)
            class_ids := pool.class_ids ++
              (rowsKept m_config cv_mat buf 0 cv_mat.rows).map (fun r => (rowBest cv_mat buf r).2)
            confidences := pool.confidences ++
              (rowsKept m_config cv_mat buf 0 cv_mat.rows).map
                (fun r => (rowBest cv_mat buf r).1) })
      else none := by
  have h := calc_box_loop_spec m_config m_image cv_mat buf hdata hlen hc cv_mat.rows 0 pool
    (by omega)
  simp only [Nat.zero_mul, List.drop_zero] at h
  simp only [calc_box, hdata, h]
  split <;> rfl

theorem calc_box_fits (m_config : model_conf_t) (m_image : Image) (cv_mat : Mat) (buf : List ℚ)
    (hit_min iou_max : ℚ) (pool : Pool) (hdata : cv_mat.data = some buf)
    (hlen : buf.length = cv_mat.rows * cv_mat.cols) (hc : 5 < cv_mat.cols)
    (hfit : ∀ i, i ∈ rowsKept m_config cv_mat buf 0 cv_mat.rows → rowFits m_image cv_mat i = true) :
    calc_box m_config m_image cv_mat hit_min iou_max pool =
      some (1,
        { boxes := pool.boxes ++
            (rowsKept m_config cv_mat buf 0 cv_mat.rows).map (rowRect m_image cv_mat)
          class_ids := pool.class_ids ++
            (rowsKept m_config cv_mat buf 0 cv_mat.rows).map (fun r => (rowBest cv_mat buf r).2)
          confidences := pool.confidences ++
            (rowsKept m_config cv_mat buf 0 cv_mat.rows).map
              (fun r => (rowBest cv_mat buf r).1) }) := by
  rw [calc_box_spec m_config m_image cv_mat buf hit_min iou_max pool hdata hlen hc,
    if_pos (List.all_eq_true.2 hfit)]

theorem calc_box_overflow (m_config : model_conf_t) (m_image : Image) (cv_mat : Mat)
    (buf : List ℚ) (hit_min iou_max : ℚ) (pool : Pool) (hdata : cv_mat.data = some buf)
    (hlen : buf.length = cv_mat.rows * cv_mat.cols) (hc : 5 < cv_mat.cols)
    (hover : ∃ i, i ∈ rowsKept m_config cv_mat buf 0 cv_mat.rows ∧
      rowFits m_image cv_mat i = false) :
    calc_box m_config m_image cv_mat hit_min iou_max pool = none := by
  rw [calc_box_spec m_config m_image cv_mat buf hit_min iou_max pool hdata hlen hc, if_neg]
  intro hall
  obtain ⟨i, hi, hfalse⟩ := hover
  have := List.all_eq_true.1 hall i hi
  rw [hfalse] at this
  exact absurd this (by decide)

theorem sampleTensor_fits :
    ∀ i, i < sampleTensor.rows → rowFits sampleImage sampleTensor i = true := by
  decide!

/-- C1 (thresholding).  For a tensor with non-null data, `rows * cols` elements and more than
five columns, the rows for which `calc_box` appends a candidate are those of the list `kept`,
in the order of the rows, where a row is in `kept` if and only if its best class score
(`best i`, the greatest element of columns `5 .. cols - 1` of row `i`) is at least
`m_config.m_hit_min`; a row whose best score equals the threshold is in `kept`.  The call
returns 1 with one candidate appended per row of `kept`; the one way out is a row of `kept`
whose rectangle does not fit `std::int32_t`, where the C++ arithmetic is undefined and the
call has no result. -/
theorem C1_threshold_iff (m_config : model_conf_t) (m_image : Image) (cv_mat : Mat)
    (buf : List ℚ) (hit_min iou_max : ℚ) (pool : Pool) (hdata : cv_mat.data = some buf)
    (hlen : buf.length = cv_mat.rows * cv_mat.cols) (hc : 5 < cv_mat.cols) :
    ∃ (best : Nat → ℚ) (cls : Nat → Int) (kept : List Nat),
      (∀ i, i < cv_mat.rows →
        IsGreatest {v | ∃ j, 5 ≤ j ∧ j < cv_mat.cols ∧ cv_mat.at i j = v} (best i)) ∧
      kept.Pairwise (fun a b => a < b) ∧
      (∀ i, i ∈ kept ↔ i < cv_mat.rows ∧ m_config.m_hit_min ≤ best i) ∧
      (∀ i, i < cv_mat.rows → best i = m_config.m_hit_min → i ∈ kept) ∧
      ((∀ i, i ∈ kept → rowFits m_image cv_mat i = true) →
        calc_box m_config m_image cv_mat hit_min iou_max pool =
          some (1,
            { boxes := pool.boxes ++ kept.map (rowRect m_image cv_mat)
              class_ids := pool.class_ids ++ kept.map cls
              confidences := pool.confidences ++ kept.map best })) ∧
      ((∃ i, i ∈ kept ∧ rowFits m_image cv_mat i = false) →
        calc_box m_config m_image cv_mat hit_min iou_max pool = none) := by
  refine ⟨fun i => (rowBest cv_mat buf i).1, fun i => (rowBest cv_mat buf i).2,
    rowsKept m_config cv_mat buf 0 cv_mat.rows, ?_, rowsKept_pairwise _ _ _ _ _,
    mem_rowsKept m_config cv_mat buf, ?_,
    calc_box_fits m_config m_image cv_mat buf hit_min iou_max pool hdata hlen hc,
    calc_box_overflow m_config m_image cv_mat buf hit_min iou_max pool hdata hlen hc⟩
  · intro i hi
    obtain ⟨k, -, -, hk, hat, hmax⟩ := rowBest_spec cv_mat buf i hdata hlen hi hc
    refine ⟨⟨5 + k, by omega, by omega, hat⟩, ?_⟩
    rintro v ⟨j, hj5, hjc, rfl⟩
    exact hmax j hj5 hjc
  · intro i hi hbest
    exact (mem_rowsKept m_config cv_mat buf i).2 ⟨hi, le_of_eq hbest.symm⟩

/-- Witness of C1 on `sampleTensor`, whose row 0 scores exactly the threshold and whose
rectangles fit `std::int32_t`: the call returns 1 with the candidates of the rows `kept`. -/
theorem C1_threshold_iff_witness :
    ∃ (best : Nat → ℚ) (cls : Nat → Int) (kept : List Nat),
      (∀ i, i < sampleTensor.rows →
        IsGreatest {v | ∃ j, 5 ≤ j ∧ j < sampleTensor.cols ∧ sampleTensor.at i j = v} (best i)) ∧
      kept.Pairwise (fun a b => a < b) ∧
      (∀ i, i ∈ kept ↔ i < sampleTensor.rows ∧ config.m_hit_min ≤ best i) ∧
      (∀ i, i < sampleTensor.rows → best i = config.m_hit_min → i ∈ kept) ∧
      calc_box config sampleImage sampleTensor config.m_hit_min config.m_iou_max Pool.nil =
        some (1,
          { boxes := Pool.nil.boxes ++ kept.map (rowRect sampleImage sampleTensor)
            class_ids := Pool.nil.class_ids ++ kept.map cls
            confidences := Pool.nil.confidences ++ kept.map best }) := by
  obtain ⟨best, cls, kept, h1, h2, h3, h4, h5, -⟩ :=
    C1_threshold_iff config sampleImage sampleTensor sampleBuf config.m_hit_min config.m_iou_max
      Pool.nil rfl (by decide) (by decide)
  exact ⟨best, cls, kept, h1, h2, h3, h4,
    h5 (fun i hi => sampleTensor_fits i ((h3 i).1 hi).1)⟩

/-- C2, the claim refuted.  On a 416 x 416 image the row (0.5, 0.5, 0.2, 0.1) is decoded to the
rectangle (167, 188, 83, 41), both with the decimal fractions and with the nearest `float`
values, whereas truncating `frac_x * W - frac_w * W / 2` and `frac_y * H - frac_h * H / 2`
gives the corner (166, 187) of the claim.  And for a row that passes the threshold with width
field 1e7 the product is not a value of `std::int32_t`: the conversion is undefined and no
rectangle of the stated formula is appended. -/
theorem C2_counterexample :
    calc_box config sampleImage boxTensor config.m_hit_min config.m_iou_max Pool.nil =
        some (1, ⟨[⟨167, 188, 83, 41⟩], [0], [9 / 10]⟩) ∧
      calc_box config sampleImage boxTensorF32 config.m_hit_min config.m_iou_max Pool.nil =
        some (1, ⟨[⟨167, 188, 83, 41⟩], [0], [7549747 / 8388608]⟩) ∧
      truncZ ((1 / 2 : ℚ) * 416 - (1 / 5 : ℚ) * 416 / 2) = 166 ∧
      truncZ ((1 / 2 : ℚ) * 416 - (1 / 10 : ℚ) * 416 / 2) = 187 ∧
      (⟨167, 188, 83, 41⟩ : Rect) ≠ ⟨166, 187, 83, 41⟩ ∧
      denorm 10000000 416 = 4160000000 ∧
      calc_box config sampleImage wideTensor config.m_hit_min config.m_iou_max Pool.nil = none := by
  refine ⟨by decide!, by decide!, by decide!, by decide!, by decide, by decide!, by decide!⟩

/-- C2 as amended.  For a tensor with non-null data, `rows * cols` elements and more than five
columns, the rows for which a rectangle is appended are the rows `kept` whose best class score
reaches the threshold, and the rectangle appended for such a row `i` with fields
`(frac_x, frac_y, frac_w, frac_h)` on an image of `W x H` pixels has `w = trunc(frac_w * W)`,
`h = trunc(frac_h * H)`, `x = trunc(frac_x * W) - w / 2` and `y = trunc(frac_y * H) - h / 2`,
each product being the `float` product and `/` the integer division that rounds toward zero,
provided that the four truncated products and the two differences are values of
`std::int32_t`; the box (0.5, 0.5, 0.2, 0.1) on a 416 x 416 image gives (167, 188, 83, 41). -/
theorem C2_rect_formula :
    (∀ (m_config : model_conf_t) (m_image : Image) (cv_mat : Mat) (buf : List ℚ)
        (hit_min iou_max : ℚ) (pool : Pool), cv_mat.data = some buf →
        buf.length = cv_mat.rows * cv_mat.cols → 5 < cv_mat.cols →
      ∃ (best : Nat → ℚ) (cls : Nat → Int) (kept : List Nat),
        (∀ i, i < cv_mat.rows →
          IsGreatest {v | ∃ j, 5 ≤ j ∧ j < cv_mat.cols ∧ cv_mat.at i j = v} (best i)) ∧
        kept.Pairwise (fun a b => a < b) ∧
        (∀ i, i ∈ kept ↔ i < cv_mat.rows ∧ m_config.m_hit_min ≤ best i) ∧
        ((∀ i, i ∈ kept →
            fits32 (denorm (cv_mat.at i 2) m_image.cols) = true ∧
            fits32 (denorm (cv_mat.at i 3) m_image.rows) = true ∧
            fits32 (denorm (cv_mat.at i 0) m_image.cols) = true ∧
            fits32 (denorm (cv_mat.at i 1) m_image.rows) = true ∧
            fits32 (denorm (cv_mat.at i 0) m_image.cols -
              Int.tdiv (denorm (cv_mat.at i 2) m_image.cols) 2) = true ∧
            fits32 (denorm (cv_mat.at i 1) m_image.rows -
              Int.tdiv (denorm (cv_mat.at i 3) m_image.rows) 2) = true) →
          calc_box m_config m_image cv_mat hit_min iou_max pool =
            some (1,
              { boxes := pool.boxes ++ kept.map (fun i =>
                  { x := denorm (cv_mat.at i 0) m_image.cols -
                      Int.tdiv (denorm (cv_mat.at i 2) m_image.cols) 2
                    y := denorm (cv_mat.at i 1) m_image.rows -
                      Int.tdiv (denorm (cv_mat.at i 3) m_image.rows) 2
                    width := denorm (cv_mat.at i 2) m_image.cols
                    height := denorm (cv_mat.at i 3) m_image.rows })
                class_ids := pool.class_ids ++ kept.map cls
                confidences := pool.confidences ++ kept.map best }))) ∧
    calc_box config sampleImage boxTensorF32 config.m_hit_min config.m_iou_max Pool.nil =
      some (1, ⟨[⟨167, 188, 83, 41⟩], [0], [7549747 / 8388608]⟩) := by
  refine ⟨?_, by decide!⟩
  intro m_config m_image cv_mat buf hit_min iou_max pool hdata hlen hc
  refine ⟨fun i => (rowBest cv_mat buf i).1, fun i => (rowBest cv_mat buf i).2,
    rowsKept m_config cv_mat buf 0 cv_mat.rows, ?_, rowsKept_pairwise _ _ _ _ _,
    mem_rowsKept m_config cv_mat buf, ?_⟩
  · intro i hi
    obtain ⟨k, -, -, hk, hat, hmax⟩ := rowBest_spec cv_mat buf i hdata hlen hi hc
    refine ⟨⟨5 + k, by omega, by omega, hat⟩, ?_⟩
    rintro v ⟨j, hj5, hjc, rfl⟩
    exact hmax j hj5 hjc
  · intro hfit
    rw [calc_box_fits m_config m_image cv_mat buf hit_min iou_max pool hdata hlen hc]
    · rfl
    · intro i hi
      obtain ⟨h2, h3, h0, h1, hx, hy⟩ := hfit i hi
      simp [rowFits, rowRect, h2, h3, h0, h1, hx, hy]

/-- Witness of C2 as amended, on `sampleTensor`, whose rectangles fit `std::int32_t`. -/
theorem C2_rect_formula_witness :
    ∃ (best : Nat → ℚ) (cls : Nat → Int) (kept : List Nat),
      (∀ i, i < sampleTensor.rows →
        IsGreatest {v | ∃ j, 5 ≤ j ∧ j < sampleTensor.cols ∧ sampleTensor.at i j = v} (best i)) ∧
      kept.Pairwise (fun a b => a < b) ∧
      (∀ i, i ∈ kept ↔ i < sampleTensor.rows ∧ config.m_hit_min ≤ best i) ∧
      calc_box config sampleImage sampleTensor config.m_hit_min config.m_iou_max Pool.nil =
        some (1,
          { boxes := Pool.nil.boxes ++ kept.map (fun i =>
              { x := denorm (sampleTensor.at i 0) sampleImage.cols -
                  Int.tdiv (denorm (sampleTensor.at i 2) sampleImage.cols) 2
                y := denorm (sampleTensor.at i 1) sampleImage.rows -
                  Int.tdiv (denorm (sampleTensor.at i 3) sampleImage.rows) 2
                width := denorm (sampleTensor.at i 2) sampleImage.cols
                height := denorm (sampleTensor.at i 3) sampleImage.rows })
            class_ids := Pool.nil.class_ids ++ kept.map cls
            confidences := Pool.nil.confidences ++ kept.map best }) := by
  obtain ⟨best, cls, kept, h1, h2, h3, h4⟩ :=
    C2_rect_formula.1 config sampleImage sampleTensor sampleBuf config.m_hit_min
      config.m_iou_max Pool.nil rfl (by decide) (by decide)
  refine ⟨best, cls, kept, h1, h2, h3, h4 ?_⟩
  intro i hi
  have hfit := sampleTensor_fits i ((h3 i).1 hi).1
  simpa [rowFits, rowRect, and_assoc] using hfit

/-- C8, the claim refuted.  A tensor of zero rows whose data pointer is null (an empty
`cv::Mat`) sends `calc_box` through the "bad material data" branch: it returns 0, not 1. -/
theorem C8_counterexample :
    calc_box config sampleImage ⟨0, 85, none⟩ config.m_hit_min config.m_iou_max Pool.nil =
        some (0, Pool.nil) ∧
      calc_box config sampleImage ⟨0, 85, none⟩ config.m_hit_min config.m_iou_max Pool.nil ≠
        some (1, Pool.nil) := by
  constructor
  · rfl
  · intro h
    have h1 : (0 : Int) = 1 := congrArg Prod.fst (Option.some.inj h)
    exact absurd h1 (by decide)

/-- C8 as amended.  For a tensor of zero rows `calc_box` appends nothing, the three vectors are
left as they were; it returns 1 when the data pointer of the tensor is not null and 0, through
the "bad material data" branch, when it is null. -/
theorem C8_zero_rows (m_config : model_conf_t) (m_image : Image) (cv_mat : Mat)
    (hit_min iou_max : ℚ) (pool : Pool) (hrows : cv_mat.rows = 0) :
    calc_box m_config m_image cv_mat hit_min iou_max pool =
      some (if cv_mat.data.isSome then 1 else 0, pool) := by
  unfold calc_box
  cases hdata : cv_mat.data with
  | none => simp
  | some buf => simp [hrows, calc_box_loop]

/-- Witness of C8 as amended: a zero-row view of a buffer that is not null. -/
theorem C8_zero_rows_witness :
    (⟨0, 85, some []⟩ : Mat).rows = 0 ∧
      calc_box config sampleImage ⟨0, 85, some []⟩ config.m_hit_min config.m_iou_max Pool.nil =
        some (if (⟨0, 85, some []⟩ : Mat).data.isSome then 1 else 0, Pool.nil) :=
  ⟨rfl, C8_zero_rows config sampleImage ⟨0, 85, some []⟩ config.m_hit_min config.m_iou_max
    Pool.nil rfl⟩

theorem annotate_empty_names (format : String → ℚ → String) (pool : Pool) :
    ∀ (indices : List Int) (m_image : Image),
      (∀ it ∈ indices, 0 ≤ it ∧ it < pool.boxes.length ∧ it < pool.class_ids.length ∧
        it < pool.confidences.length) →
      annotate [] format pool indices m_image =
        some { m_image with
          drawn := m_image.drawn ++
            indices.filterMap (fun it => (vecAt pool.boxes it).map DrawOp.rectangle) } := by
  intro indices
  induction indices with
  | nil =>
    intro m_image _
    simp [annotate]
  | cons it rest ih =>
    intro m_image hin
    obtain ⟨h0, hb, hc, hf⟩ := hin it (List.mem_cons_self _ _)
    have hb1 : it.toNat < pool.boxes.length := by omega
    have hc1 : it.toNat < pool.class_ids.length := by omega
    have hf1 : it.toNat < pool.confidences.length := by omega
    have hvb : vecAt pool.boxes it = some pool.boxes[it.toNat] := by
      simp [vecAt, h0, List.getElem?_eq_getElem hb1]
    have hvc : vecAt pool.class_ids it = some pool.class_ids[it.toNat] := by
      simp [vecAt, h0, List.getElem?_eq_getElem hc1]
    have hvf : vecAt pool.confidences it = some pool.confidences[it.toNat] := by
      simp [vecAt, h0, List.getElem?_eq_getElem hf1]
    have hrest := ih (m_image.draw (DrawOp.rectangle pool.boxes[it.toNat]))
      (fun j hj => hin j (List.mem_cons_of_mem _ hj))
    simp only [annotate, hvb, hvc, hvf, draw_box, List.isEmpty_nil, if_true, hrest]
    simp [Image.draw, List.filterMap_cons, hvb]

/-- C9 (empty name table).  With an empty `m_names`, `draw_box` returns 1 for every class id,
confidence and rectangle, in or out of any range; the only thing it does to the image is to
draw the rectangle: no text is put and no name is looked up.  So the loop of `post_process`
over surviving indices that are within the pool draws the rectangles of the survivors, in
order, and nothing else. -/
theorem C9_empty_names :
    (∀ (format : String → ℚ → String) (m_image : Image) (class_id : Int) (confidence : ℚ)
        (box : Rect),
      draw_box [] format m_image class_id confidence box =
        some (1, { m_image with drawn := m_image.drawn ++ [DrawOp.rectangle box] })) ∧
    (∀ (format : String → ℚ → String) (pool : Pool) (indices : List Int) (m_image : Image),
      (∀ it ∈ indices, 0 ≤ it ∧ it < pool.boxes.length ∧ it < pool.class_ids.length ∧
        it < pool.confidences.length) →
      annotate [] format pool indices m_image =
        some { m_image with
          drawn := m_image.drawn ++
            indices.filterMap (fun it => (vecAt pool.boxes it).map DrawOp.rectangle) }) :=
  ⟨fun _ _ _ _ _ => rfl, fun format pool indices m_image h =>
    annotate_empty_names format pool indices m_image h⟩

/-- Witness of C9: a pool of two candidates whose class ids 80 and -1 are in no name table, both
surviving. -/
theorem C9_empty_names_witness :
    draw_box [] (fun name _ => name) photo 80 (9 / 10) ⟨167, 188, 83, 41⟩ =
        some (1, { photo with drawn := photo.drawn ++ [DrawOp.rectangle ⟨167, 188, 83, 41⟩] }) ∧
      annotate [] (fun name _ => name)
          ⟨[⟨167, 188, 83, 41⟩, ⟨0, 0, 10, 10⟩], [80, -1], [9 / 10, 8 / 10]⟩ [1, 0] photo =
        some { photo with
          drawn := photo.drawn ++
            [1, 0].filterMap (fun it =>
              (vecAt [(⟨167, 188, 83, 41⟩ : Rect), ⟨0, 0, 10, 10⟩] it).map DrawOp.rectangle) } :=
  ⟨C9_empty_names.1 (fun name _ => name) photo 80 (9 / 10) ⟨167, 188, 83, 41⟩,
    C9_empty_names.2 (fun name _ => name)
      ⟨[⟨167, 188, 83, 41⟩, ⟨0, 0, 10, 10⟩], [80, -1], [9 / 10, 8 / 10]⟩ [1, 0] photo
      (by decide)⟩

theorem calc_box_ok (m_config : model_conf_t) (m_image : Image) (cv_mat : Mat)
    (hit_min iou_max : ℚ) (pool : Pool) (ret : Int) (pool1 : Pool) (hc : 5 < cv_mat.cols)
    (hwf : cv_mat.wf) (hpool : pool.ok ((cv_mat.cols : Int) - 5))
    (hcalc : calc_box m_config m_image cv_mat hit_min iou_max pool = some (ret, pool1)) :
    pool1.ok ((cv_mat.cols : Int) - 5) := by
  cases hdata : cv_mat.data with
  | none =>
    simp [calc_box, hdata] at hcalc
    rw [← hcalc.2]
    exact hpool
  | some buf =>
    have hlen := hwf buf hdata
    rw [calc_box_spec m_config m_image cv_mat buf hit_min iou_max pool hdata hlen hc] at hcalc
    split at hcalc
    · have hp := (Prod.mk.inj (Option.some.inj hcalc)).2
      rw [← hp]
      obtain ⟨h1, h2, h3⟩ := hpool
      refine ⟨by simp [h1], by simp [h2], ?_⟩
      intro id hid
      rcases List.mem_append.1 hid with hid | hid
      · exact h3 id hid
      · obtain ⟨i, hi, rfl⟩ := List.mem_map.1 hid
        obtain ⟨k, -, hk2, hk, -, -⟩ :=
          rowBest_spec cv_mat buf i hdata hlen ((mem_rowsKept m_config cv_mat buf i).1 hi).1 hc
        rw [hk2]
        omega
    · exact absurd hcalc (by simp)

theorem calc_box_total (m_config : model_conf_t) (m_image : Image) (cv_mat : Mat)
    (hit_min iou_max : ℚ) (pool : Pool) (hc : 5 < cv_mat.cols) (hwf : cv_mat.wf)
    (hfit : ∀ i, i < cv_mat.rows → rowFits m_image cv_mat i = true) :
    ∃ ret pool1, calc_box m_config m_image cv_mat hit_min iou_max pool = some (ret, pool1) := by
  cases hdata : cv_mat.data with
  | none => exact ⟨0, pool, by simp [calc_box, hdata]⟩
  | some buf =>
    exact ⟨1, _, calc_box_fits m_config m_image cv_mat buf hit_min iou_max pool hdata
      (hwf buf hdata) hc (fun i hi => hfit i ((mem_rowsKept m_config cv_mat buf i).1 hi).1)⟩

theorem decode_ok (m_config : model_conf_t) (m_image : Image) (C : Nat) (hC : 5 < C) :
    ∀ (m_output : List Mat) (pool pool1 : Pool), (∀ m ∈ m_output, m.cols = C) →
      (∀ m ∈ m_output, m.wf) → pool.ok ((C : Int) - 5) →
      decode m_config m_image m_output pool = some pool1 → pool1.ok ((C : Int) - 5) := by
  intro m_output
  induction m_output with
  | nil =>
    intro pool pool1 _ _ hpool hdec
    simp [decode] at hdec
    rw [← hdec]
    exact hpool
  | cons it rest ih =>
    intro pool pool1 hcols hwf hpool hdec
    have hc : it.cols = C := hcols it (List.mem_cons_self _ _)
    unfold decode at hdec
    cases hcalc : calc_box m_config m_image it m_config.m_hit_min m_config.m_iou_max pool with
    | none => simp [hcalc] at hdec
    | some r =>
      obtain ⟨ret, pool2⟩ := r
      simp only [hcalc] at hdec
      have hok := calc_box_ok m_config m_image it m_config.m_hit_min m_config.m_iou_max pool ret
        pool2 (by omega) (hwf it (List.mem_cons_self _ _)) (by rw [hc]; exact hpool) hcalc
      rw [hc] at hok
      exact ih pool2 pool1 (fun m hm => hcols m (List.mem_cons_of_mem _ hm))
        (fun m hm => hwf m (List.mem_cons_of_mem _ hm)) hok hdec

theorem decode_total (m_config : model_conf_t) (m_image : Image) (C : Nat) (hC : 5 < C) :
    ∀ (m_output : List Mat) (pool : Pool), (∀ m ∈ m_output, m.cols = C) →
      (∀ m ∈ m_output, m.wf) →
      (∀ m ∈ m_output, ∀ i, i < m.rows → rowFits m_image m i = true) →
      ∃ pool1, decode m_config m_image m_output pool = some pool1 := by
  intro m_output
  induction m_output with
  | nil =>
    intro pool _ _ _
    exact ⟨pool, rfl⟩
  | cons it rest ih =>
    intro pool hcols hwf hfit
    have hc : it.cols = C := hcols it (List.mem_cons_self _ _)
    obtain ⟨ret, pool2, hcalc⟩ :=
      calc_box_total m_config m_image it m_config.m_hit_min m_config.m_iou_max pool (by omega)
        (hwf it (List.mem_cons_self _ _)) (hfit it (List.mem_cons_self _ _))
    obtain ⟨pool1, hdec⟩ := ih pool2 (fun m hm => hcols m (List.mem_cons_of_mem _ hm))
      (fun m hm => hwf m (List.mem_cons_of_mem _ hm))
      (fun m hm => hfit m (List.mem_cons_of_mem _ hm))
    exact ⟨pool1, by simp [decode, hcalc, hdec]⟩

/-- C10 (class ids stay in range).  For output tensors that all have `C > 5` columns (and whose
buffers, where not null, hold `rows * cols` elements) every pool that the decoding loop of
`post_process` yields has three vectors of one length and class ids that all satisfy
`0 <= class id < C - 5`; so with a name table of at least `C - 5` entries the accesses
`class_ids[ it ]` and `m_names[ class_id ]` are within bounds for every index `it` in range.
And the loop does yield a pool whenever the rectangles of the rows fit `std::int32_t`, that
is, whenever the C++ arithmetic of the decoder is defined. -/
theorem C10_class_id_in_range (m_config : model_conf_t) (m_image : Image) (m_output : List Mat)
    (C : Nat) (hC : 5 < C) (hcols : ∀ m ∈ m_output, m.cols = C) (hwf : ∀ m ∈ m_output, m.wf) :
    (∀ pool, decode m_config m_image m_output Pool.nil = some pool →
      pool.boxes.length = pool.class_ids.length ∧
      pool.class_ids.length = pool.confidences.length ∧
      (∀ id ∈ pool.class_ids, 0 ≤ id ∧ id < (C : Int) - 5) ∧
      ∀ (m_names : List String), C - 5 ≤ m_names.length →
        ∀ it : Int, 0 ≤ it → it < pool.class_ids.length →
          ∃ class_id name, vecAt pool.class_ids it = some class_id ∧
            vecAt m_names class_id = some name) ∧
    ((∀ m ∈ m_output, ∀ i, i < m.rows → rowFits m_image m i = true) →
      ∃ pool, decode m_config m_image m_output Pool.nil = some pool) := by
  refine ⟨?_, decode_total m_config m_image C hC m_output Pool.nil hcols hwf⟩
  intro pool hdec
  obtain ⟨h1, h2, h3⟩ :=
    decode_ok m_config m_image C hC m_output Pool.nil pool hcols hwf
      ⟨rfl, rfl, fun id hid => absurd hid (List.not_mem_nil id)⟩ hdec
  refine ⟨h1, h2, h3, ?_⟩
  intro m_names hnames it hit0 hit
  have hlt : it.toNat < pool.class_ids.length := by omega
  refine ⟨pool.class_ids[it.toNat], ?_⟩
  have hmem : pool.class_ids[it.toNat] ∈ pool.class_ids := List.getElem_mem _
  obtain ⟨hid0, hidC⟩ := h3 _ hmem
  have hlt2 : (pool.class_ids[it.toNat]).toNat < m_names.length := by omega
  refine ⟨m_names[(pool.class_ids[it.toNat]).toNat], ?_, ?_⟩
  · simp [vecAt, hit0, List.getElem?_eq_getElem hlt]
  · simp [vecAt, hid0, List.getElem?_eq_getElem hlt2]

/-- Witness of C10: the two tensors `sampleTensor` and an empty tensor of seven columns; the
rectangles fit `std::int32_t`, the loop yields a pool and the pool is as stated. -/
theorem C10_class_id_in_range_witness :
    ∃ pool, decode config sampleImage [sampleTensor, ⟨0, 7, none⟩] Pool.nil = some pool ∧
      pool.boxes.length = pool.class_ids.length ∧
      pool.class_ids.length = pool.confidences.length ∧
      (∀ id ∈ pool.class_ids, 0 ≤ id ∧ id < ((7 : Nat) : Int) - 5) ∧
      ∀ (m_names : List String), 7 - 5 ≤ m_names.length →
        ∀ it : Int, 0 ≤ it → it < pool.class_ids.length →
          ∃ class_id name, vecAt pool.class_ids it = some class_id ∧
            vecAt m_names class_id = some name := by
  obtain ⟨hpart, htotal⟩ :=
    C10_class_id_in_range config sampleImage [sampleTensor, ⟨0, 7, none⟩] 7 (by decide)
      (by
        intro m hm
        simp only [List.mem_cons, List.mem_singleton, List.not_mem_nil, or_false] at hm
        rcases hm with rfl | rfl <;> rfl)
      (by
        intro m hm buf hbuf
        simp only [List.mem_cons, List.mem_singleton, List.not_mem_nil, or_false] at hm
        rcases hm with rfl | rfl
        · cases hbuf
          decide
        · cases hbuf)
  obtain ⟨pool, hpool⟩ := htotal (by
    intro m hm i hi
    simp only [List.mem_cons, List.mem_singleton, List.not_mem_nil, or_false] at hm
    rcases hm with rfl | rfl
    · exact sampleTensor_fits i hi
    · exact absurd hi (Nat.not_lt_zero i))
  exact ⟨pool, hpool, hpart pool hpool⟩

theorem greedy_fuel (nms_threshold : ℚ) :
    ∀ (n m : Nat) (l : List Scored), l.length ≤ n → l.length ≤ m →
      greedy nms_threshold n l = greedy nms_threshold m l := by
  intro n
  induction n with
  | zero =>
    intro m l hn _
    have hl : l = [] := List.length_eq_zero.1 (by omega)
    subst hl
    cases m <;> rfl
  | succ n ih =>
    intro m l hn hm
    cases l with
    | nil => cases m <;> rfl
    | cons c rest =>
      cases m with
      | zero => simp at hm
      | succ m =>
        have hf := List.length_filter_le
          (fun d : Scored => !decide (nms_threshold < iou d.box c.box)) rest
        simp only [List.length_cons] at hn hm
        simp only [greedy]
        rw [ih m _ (by omega) (by omega)]

theorem main_net_failure (w : World) (indeterminate : model_conf_t)
    (hnet : w.readNet config.m_model_path config.m_model_conf config.m_model_type = none) :
    main w indeterminate = some [] := by
  simp [main, model_t.ctor, hnet]

theorem detect_image_unreadable (w : World) (this : model_t) (image_path : String)
    (hread : (w.imread image_path).empty = true) :
    detect_image w this image_path =
      some (0, { this with m_image := w.imread image_path }) := by
  simp [detect_image, hread]

/-- C6, the run that breaks the claim.  In `worldNoNames` the file of class names cannot be
opened, the constructor returns before `m_config = conf`, and `main` still enters its loop:
the run starts with `detect_image`, `post_process` (which decodes and draws with the
unassigned configuration) and `imshow` for the first file, and has these three events for each
of the nine files. -/
theorem C6_names_failure_not_fatal :
    worldNoNames.openNames config.m_names_path = none ∧
      (main worldNoNames unassigned).map (fun evs => (evs.length, evs.take 3)) =
        some (27,
          [Event.detect_image "net/shibuya_crossing.jpg" 1, Event.post_process 1,
           Event.imshow "shibuya_crossing.jpg"
             { photo with drawn := [DrawOp.rectangle ⟨167, 188, 83, 41⟩] }]) := by
  constructor
  · rfl
  · decide!

theorem post_process_few_outputs (w : World) (this : model_t)
    (hout : this.m_output.length ≤ 1) : post_process w this = some (0, this) := by
  simp [post_process, hout]

/-- C7, the run that breaks the claim.  In `worldOneImage` the second image cannot be read:
`detect_image` returns 0 and leaves in `m_output` the two tensors of the first image, and the
`post_process` that `main` runs next decodes a candidate from them (on the empty image its
rectangle is (0, 0, 0, 0)), keeps it, and draws its box and its label. -/
theorem C7_stale_output_reused :
    (worldOneImage.imread "net/people_walking.jpg").empty = true ∧
      afterSecondDetect.map (fun r => (r.1, r.2.m_output)) =
        some (0, [boxTensorF32, ⟨0, 6, none⟩]) ∧
      afterSecondDetect.bind (fun r => decode r.2.m_config r.2.m_image r.2.m_output Pool.nil) =
        some ⟨[⟨0, 0, 0, 0⟩], [0], [7549747 / 8388608]⟩ ∧
      (afterSecondDetect.bind (fun r => post_process worldOneImage r.2)).map
          (fun r => (r.1, r.2.m_image.drawn)) =
        some (1, [DrawOp.rectangle ⟨0, 0, 0, 0⟩, DrawOp.putText "person" ⟨0, 0⟩]) ∧
      (main worldOneImage unassigned).map (fun evs => (evs.drop 3).take 3) =
        some
          [Event.detect_image "net/people_walking.jpg" 0, Event.post_process 1,
           Event.imshow "people_walking.jpg"
             { Image.none with
               drawn := [DrawOp.rectangle ⟨0, 0, 0, 0⟩, DrawOp.putText "person" ⟨0, 0⟩] }] := by
  refine ⟨by decide, by decide!, by decide!, by decide!, by decide!⟩

theorem mem_scoredFrom :
    ∀ (boxes : List Rect) (scores : List ℚ) (k : Nat) (c : Scored),
      c ∈ scoredFrom k boxes scores →
        k ≤ c.idx ∧ c.idx < k + boxes.length ∧ c.idx < k + scores.length := by
  intro boxes
  induction boxes with
  | nil =>
    intro scores k c hc
    simp [scoredFrom] at hc
  | cons b bs ih =>
    intro scores k c hc
    cases scores with
    | nil => simp [scoredFrom] at hc
    | cons s ss =>
      simp only [scoredFrom, List.mem_cons] at hc
      rcases hc with rfl | hc
      · simp
      · have := ih ss (k + 1) c hc
        simp only [List.length_cons]
        omega

theorem mem_insertDesc (d : Scored) :
    ∀ (l : List Scored) (c : Scored), c ∈ insertDesc d l → c = d ∨ c ∈ l := by
  intro l
  induction l with
  | nil =>
    intro c hc
    simpa [insertDesc] using hc
  | cons e es ih =>
    intro c hc
    unfold insertDesc at hc
    split at hc
    · rcases List.mem_cons.1 hc with rfl | hc
      · exact Or.inr (List.mem_cons_self _ _)
      · rcases ih c hc with h | h
        · exact Or.inl h
        · exact Or.inr (List.mem_cons_of_mem _ h)
    · rcases List.mem_cons.1 hc with rfl | hc
      · exact Or.inl rfl
      · exact Or.inr hc

theorem mem_sortDesc : ∀ (l : List Scored) (c : Scored), c ∈ sortDesc l → c ∈ l := by
  intro l
  induction l with
  | nil =>
    intro c hc
    simp [sortDesc] at hc
  | cons e es ih =>
    intro c hc
    rcases mem_insertDesc e (sortDesc es) c hc with rfl | h
    · exact List.mem_cons_self _ _
    · exact List.mem_cons_of_mem _ (ih c h)

theorem mem_greedy (nms_threshold : ℚ) :
    ∀ (fuel : Nat) (l : List Scored) (c : Scored), c ∈ greedy nms_threshold fuel l → c ∈ l := by
  intro fuel
  induction fuel with
  | zero =>
    intro l c hc
    simp [greedy] at hc
  | succ fuel ih =>
    intro l c hc
    cases l with
    | nil => simp [greedy] at hc
    | cons e es =>
      simp only [greedy, List.mem_cons] at hc
      rcases hc with rfl | hc
      · exact List.mem_cons_self _ _
      · exact List.mem_cons_of_mem _ (List.mem_of_mem_filter (ih _ c hc))

theorem NMSBoxes_in_range (boxes : List Rect) (scores : List ℚ) (score_threshold nms_threshold : ℚ)
    (it : Int) (hit : it ∈ NMSBoxes boxes scores score_threshold nms_threshold) :
    0 ≤ it ∧ it < boxes.length ∧ it < scores.length := by
  simp only [NMSBoxes, List.mem_map] at hit
  obtain ⟨c, hc, rfl⟩ := hit
  have h := mem_scoredFrom boxes scores 0 c
    (List.mem_of_mem_filter (mem_sortDesc _ c (mem_greedy _ _ _ c hc)))
  omega

theorem annotate_in_range (m_names : List String) (format : String → ℚ → String) (pool : Pool)
    (hnames : ∀ id ∈ pool.class_ids, 0 ≤ id ∧ id < m_names.length) :
    ∀ (indices : List Int) (m_image : Image),
      (∀ it ∈ indices, 0 ≤ it ∧ it < pool.boxes.length ∧ it < pool.class_ids.length ∧
        it < pool.confidences.length) →
      ∃ image, annotate m_names format pool indices m_image = some image := by
  intro indices
  induction indices with
  | nil =>
    intro m_image _
    exact ⟨m_image, rfl⟩
  | cons it rest ih =>
    intro m_image hin
    obtain ⟨h0, hb, hc, hf⟩ := hin it (List.mem_cons_self _ _)
    have hb1 : it.toNat < pool.boxes.length := by omega
    have hc1 : it.toNat < pool.class_ids.length := by omega
    have hf1 : it.toNat < pool.confidences.length := by omega
    have hvb : vecAt pool.boxes it = some pool.boxes[it.toNat] := by
      simp [vecAt, h0, List.getElem?_eq_getElem hb1]
    have hvc : vecAt pool.class_ids it = some pool.class_ids[it.toNat] := by
      simp [vecAt, h0, List.getElem?_eq_getElem hc1]
    have hvf : vecAt pool.confidences it = some pool.confidences[it.toNat] := by
      simp [vecAt, h0, List.getElem?_eq_getElem hf1]
    obtain ⟨hid0, hid1⟩ := hnames _ (List.getElem_mem hc1)
    have hn1 : (pool.class_ids[it.toNat]).toNat < m_names.length := by omega
    have hvn : vecAt m_names pool.class_ids[it.toNat] =
        some m_names[(pool.class_ids[it.toNat]).toNat] := by
      simp [vecAt, hid0, List.getElem?_eq_getElem hn1]
    have hdraw : ∃ ret image1, draw_box m_names format m_image pool.class_ids[it.toNat]
        pool.confidences[it.toNat] pool.boxes[it.toNat] = some (ret, image1) := by
      unfold draw_box
      simp only [hvn]
      split
      · exact ⟨_, _, rfl⟩
      · split
        · exact ⟨_, _, rfl⟩
        · exact ⟨_, _, rfl⟩
    obtain ⟨ret, image1, hd⟩ := hdraw
    obtain ⟨image, himage⟩ := ih image1 (fun j hj => hin j (List.mem_cons_of_mem _ hj))
    exact ⟨image, by simp only [annotate, hvb, hvc, hvf, hd, himage]⟩

theorem post_process_in_range (w : World) (this : model_t) (C : Nat) (hC : 5 < C)
    (hout : 1 < this.m_output.length) (hcols : ∀ m ∈ this.m_output, m.cols = C)
    (hwf : ∀ m ∈ this.m_output, m.wf)
    (hfit : ∀ m ∈ this.m_output, ∀ i, i < m.rows → rowFits this.m_image m i = true)
    (hnames : C - 5 ≤ this.m_names.length) :
    ∃ image, post_process w this = some (1, { this with m_image := image }) := by
  obtain ⟨pool, hdec⟩ :=
    decode_total this.m_config this.m_image C hC this.m_output Pool.nil hcols hwf hfit
  obtain ⟨h1, h2, h3⟩ :=
    decode_ok this.m_config this.m_image C hC this.m_output Pool.nil pool hcols hwf
      ⟨rfl, rfl, fun id hid => absurd hid (List.not_mem_nil id)⟩ hdec
  have hidx : ∀ it ∈ suppress this.m_config pool,
      0 ≤ it ∧ it < pool.boxes.length ∧ it < pool.class_ids.length ∧
        it < pool.confidences.length := by
    intro it hit
    have := NMSBoxes_in_range _ _ _ _ it hit
    omega
  obtain ⟨image, himage⟩ :=
    annotate_in_range this.m_names w.format pool
      (fun id hid => ⟨(h3 id hid).1, by have := (h3 id hid).2; omega⟩)
      (suppress this.m_config pool) this.m_image hidx
  refine ⟨image, ?_⟩
  simp [post_process, Nat.not_le.2 hout, hdec, himage]

end OpencvDnn
